import Mathlib

/- A verification model of the CSR sparse-matrix template class from
src/main/cpp/CSR.hpp (the seyrek repository): the metadata record, the CSR
matrix representation, the three construction paths (load, eye, dense),
row-partition boundary calculation and row-partitioned views.

Modelling conventions: the C++ class is a template over numeric index and
value types, so indices are modelled as Nat and values as Int.  Raw buffers
(SpMVInd*, SpMVVal*) are modelled as Lists; a pointer into the middle of a
parent buffer (as produced by rowPartitionedView) is modelled as the
corresponding List suffix.  Out-of-range array reads are modelled by
List.getD with default 0.  The two metadata width fields that eye/dense
leave unassigned are modelled as Option Nat, with none for the
uninitialized state.  The external collaborator readMatrixData is modelled
as a record of optional components for a fixed matrix name; a null return
is none.  Dereferencing the metadata pointer without a null check (line 58
of CSR.hpp) is modelled as the distinguished outcome nullDeref. -/

/-- SparseMatrixMetadata from CSR.hpp.  bytesPerInd / bytesPerVal are
Option Nat: none models the field never having been assigned (eye and
dense leave both indeterminate). -/
structure SparseMatrixMetadata where
  rows : Nat
  cols : Nat
  nz : Nat
  startingRow : Nat
  startingCol : Nat
  bytesPerInd : Option Nat
  bytesPerVal : Option Nat
deriving DecidableEq

/-- The CSR matrix of CSR.hpp: metadata plus the three parallel sequences
(m_indPtrs, m_inds, m_nzData) and the display name m_name. -/
structure CSR where
  metadata : SparseMatrixMetadata
  indPtrs : List Nat
  inds : List Nat
  nzData : List Int
  name : String
deriving DecidableEq

/-- Model of the default constructor CSR() (null buffers, name set to
"<not initialized>"); used only as the List.getD default when a statement
indexes into a list of children. -/
def emptyCSR : CSR :=
  { metadata := ⟨0, 0, 0, 0, 0, none, none⟩
    indPtrs := []
    inds := []
    nzData := []
    name := "<not initialized>" }

/-- isSquare from CSR.hpp: cols == rows. -/
def isSquare (m : CSR) : Bool :=
  m.metadata.cols == m.metadata.rows

/-- eye(dim) from CSR.hpp: the dim x dim identity.  The loop sets
indPtrs[i] = i, inds[i] = i, nzData[i] = 1 for i < dim, then
indPtrs[dim] = dim. -/
def eye (dim : Nat) : CSR :=
  { metadata := { rows := dim, cols := dim, nz := dim, startingRow := 0
                  startingCol := 0, bytesPerInd := none, bytesPerVal := none }
    indPtrs := List.range dim ++ [dim]
    inds := List.range dim
    nzData := List.replicate dim (1 : Int)
    name := "eye" }

/-- dense(dim) from CSR.hpp: the fully dense dim x dim matrix.  The loops
set indPtrs[i] = i*dim for i < dim, indPtrs[dim] = dim*dim, and
inds[k] = k % dim, nzData[k] = k+1 for k < dim*dim. -/
def dense (dim : Nat) : CSR :=
  { metadata := { rows := dim, cols := dim, nz := dim * dim, startingRow := 0
                  startingCol := 0, bytesPerInd := none, bytesPerVal := none }
    indPtrs := (List.range dim).map (fun i => i * dim) ++ [dim * dim]
    inds := (List.range (dim * dim)).map (fun k => k % dim)
    nzData := (List.range (dim * dim)).map (fun k => ((k + 1 : Nat) : Int))
    name := "dense" }

/-- The external component store (readMatrixData) restricted to one matrix
name: each component is either a buffer or absent (null). -/
structure ComponentStore where
  meta : Option SparseMatrixMetadata
  indptr : Option (List Nat)
  inds : Option (List Nat)
  nzdata : Option (List Int)
deriving DecidableEq

/-- Outcomes of CSR::load other than success: the two typeMismatch throws,
the three format throws (could not load a component), and nullDeref, which
models the undefined behaviour of dereferencing the metadata pointer at
line 58 of CSR.hpp when readMatrixData(name, "meta") returned null. -/
inductive LoadError where
  | typeMismatch (msg : String)
  | format (msg : String)
  | nullDeref
deriving DecidableEq

/-- CSR::load from CSR.hpp, translated check for check and in source
order.  Note that the meta component is dereferenced without a null check
(unlike indptr, inds and nzdata), which is modelled by the nullDeref
outcome. -/
def load (s : ComponentStore) (indWidth valWidth : Nat) (nm : String)
    (genNZData : Bool) : Except LoadError CSR :=
  match s.meta with
  | none => .error .nullDeref
  | some md =>
    if md.bytesPerInd ≠ some indWidth then
      .error (.typeMismatch "bytesPerInd mismatch in CSR::load")
    else if md.bytesPerVal ≠ some valWidth ∧ genNZData = false then
      .error (.typeMismatch "bytesPerVal mismatch in CSR::load -- consider using genNZData")
    else
      match s.indptr with
      | none => .error (.format "could not load indptr in CSR::load")
      | some ips =>
        match s.inds with
        | none => .error (.format "could not load inds in CSR::load")
        | some iss =>
          if genNZData then
            .ok { metadata := md, indPtrs := ips, inds := iss
                  nzData := (List.range md.nz).map (fun i => ((i + 1 : Nat) : Int))
                  name := nm }
          else
            match s.nzdata with
            | none => .error (.format "could not load nzdata in CSR::load")
            | some nzd =>
              .ok { metadata := md, indPtrs := ips, inds := iss
                    nzData := nzd, name := nm }

/-- Classifier: did load end in one of the typeMismatch throws. -/
def isTypeMismatchResult : Except LoadError CSR → Bool
  | .error (.typeMismatch _) => true
  | _ => false

/-- Classifier: did load end in one of the format (missing component)
throws. -/
def isFormatResult : Except LoadError CSR → Bool
  | .error (.format _) => true
  | _ => false

/-- calcRowPartitionBoundaries from CSR.hpp: divSize = (rows +
numPartitions) / numPartitions, boundary i is divSize * i for
i < numPartitions, and rows is pushed as the final entry. -/
def calcRowPartitionBoundaries (m : CSR) (numPartitions : Nat) : List Nat :=
  (List.range numPartitions).map
    (fun i => ((m.metadata.rows + numPartitions) / numPartitions) * i)
  ++ [m.metadata.rows]

/-- Digits produced by the do-while loop of itoa in CSR.hpp for a
non-negative argument, least significant first. -/
def itoaRev (n : Nat) : List Char :=
  if h : n / 10 > 0 then Char.ofNat (n % 10 + 48) :: itoaRev (n / 10)
  else [Char.ofNat (n % 10 + 48)]
termination_by n
decreasing_by
  have hn : 0 < n := by
    rcases Nat.eq_zero_or_pos n with h0 | h0
    · subst h0; simp at h
    · exact h0
  exact Nat.div_lt_self hn (by norm_num)

/-- itoa from CSR.hpp for a non-negative argument (the partition index is
never negative): emit digits least significant first, then reverse. -/
def itoa (n : Nat) : String :=
  String.mk (itoaRev n).reverse

/-- Decimal representation defined independently of the code via Mathlib's
base-10 digits: most significant digit first, each digit as its ASCII
character. -/
def decimalRepr (n : Nat) : String :=
  if n = 0 then "0"
  else String.mk (((Nat.digits 10 n).map (fun d => Char.ofNat (d + 48))).reverse)

/-- Loop body of rowPartitionedView from CSR.hpp: child i's metadata is
rederived from the boundaries, its three buffers are interior pointers
into the parent's buffers (modelled as suffixes), and its name is the
parent name ++ "-p" ++ itoa i. -/
def partitionChild (m : CSR) (boundaries : List Nat) (i : Nat) : CSR :=
  { metadata :=
      { cols := m.metadata.cols
        rows := boundaries.getD (i+1) 0 - boundaries.getD i 0
        nz := m.indPtrs.getD (boundaries.getD (i+1) 0) 0
                - m.indPtrs.getD (boundaries.getD i 0) 0
        startingRow := boundaries.getD i 0
        startingCol := 0
        bytesPerInd := m.metadata.bytesPerInd
        bytesPerVal := m.metadata.bytesPerVal }
    indPtrs := m.indPtrs.drop (boundaries.getD i 0)
    inds := m.inds.drop (m.indPtrs.getD (boundaries.getD i 0) 0)
    nzData := m.nzData.drop (m.indPtrs.getD (boundaries.getD i 0) 0)
    name := m.name ++ "-p" ++ itoa i }

/-- rowPartitionedView from CSR.hpp: one child per consecutive pair of
boundaries (numPartitions = boundaries.size() - 1). -/
def rowPartitionedView (m : CSR) (boundaries : List Nat) : List CSR :=
  (List.range (boundaries.length - 1)).map (partitionChild m boundaries)

/-- Columns stored for row r, read per the CSR discipline: the entries of
row r occupy offsets [indPtrs[r], indPtrs[r+1]) of inds. -/
def rowCols (m : CSR) (r : Nat) : List Nat :=
  (m.inds.take (m.indPtrs.getD (r+1) 0)).drop (m.indPtrs.getD r 0)

/-- Values stored for row r, read per the CSR discipline. -/
def rowVals (m : CSR) (r : Nat) : List Int :=
  (m.nzData.take (m.indPtrs.getD (r+1) 0)).drop (m.indPtrs.getD r 0)

/-- The section-3 invariants as enumerated in the specification for a
constructed matrix: array lengths agree with rows and nz, index pointers
are monotone and bounded by indPtrs[rows], stored column indices are in
range, and nz equals indPtrs[rows] - indPtrs[0]. -/
def validCSR (m : CSR) : Prop :=
  m.indPtrs.length = m.metadata.rows + 1 ∧
  m.inds.length = m.metadata.nz ∧
  m.nzData.length = m.metadata.nz ∧
  (∀ r, r < m.metadata.rows → m.indPtrs.getD r 0 ≤ m.indPtrs.getD (r+1) 0) ∧
  (∀ r, r < m.metadata.rows →
    m.indPtrs.getD (r+1) 0 ≤ m.indPtrs.getD m.metadata.rows 0) ∧
  (∀ c ∈ m.inds, c < m.metadata.cols) ∧
  m.metadata.nz = m.indPtrs.getD m.metadata.rows 0 - m.indPtrs.getD 0 0

/-- validCSR strengthened by the literal section-3 bound
indPtrs[r+1] ≤ nz (which pins indPtrs[0] = 0 when rows ≥ 1): the form of
the invariants satisfied by matrices from the three origin paths. -/
def validCSR0 (m : CSR) : Prop :=
  validCSR m ∧
  ∀ r, r < m.metadata.rows → m.indPtrs.getD (r+1) 0 ≤ m.metadata.nz

/-- A boundary sequence as required by partitioning: nonempty,
monotonically non-decreasing, starting at 0 and ending at rows. -/
def validBoundaries (m : CSR) (b : List Nat) : Prop :=
  1 ≤ b.length ∧
  b.getD 0 0 = 0 ∧
  b.getD (b.length - 1) 0 = m.metadata.rows ∧
  ∀ i, i < b.length - 1 → b.getD i 0 ≤ b.getD (i+1) 0

/-- A store holding a matrix that satisfies the section-3 CSR invariants
(in the literal form with indPtrs[r+1] ≤ nz), with every component of
consistent length. -/
def storeWellFormed (s : ComponentStore) : Prop :=
  ∀ md ips iss, s.meta = some md → s.indptr = some ips → s.inds = some iss →
    ips.length = md.rows + 1 ∧
    iss.length = md.nz ∧
    (∀ r, r < md.rows → ips.getD r 0 ≤ ips.getD (r+1) 0) ∧
    (∀ r, r < md.rows → ips.getD (r+1) 0 ≤ md.nz) ∧
    (∀ c ∈ iss, c < md.cols) ∧
    md.nz = ips.getD md.rows 0 - ips.getD 0 0 ∧
    (∀ nzd, s.nzdata = some nzd → nzd.length = md.nz)

/-- The CSR sequences of a matrix whose buffers may extend beyond its own
extent (a view aliasing a parent's arrays has no length of its own): the
first rows+1 index pointers and the first nz column indices and values. -/
def viewTrim (m : CSR) : CSR :=
  { m with indPtrs := m.indPtrs.take (m.metadata.rows + 1)
           inds := m.inds.take m.metadata.nz
           nzData := m.nzData.take m.metadata.nz }

/-- Every row index below rows lies in exactly one of the half-open ranges
[b[i], b[i+1]) determined by the boundary list. -/
def coversExactlyOnce (b : List Nat) (rows : Nat) : Prop :=
  ∀ x, x < rows → ∃ i, i < b.length - 1 ∧
    b.getD i 0 ≤ x ∧ x < b.getD (i+1) 0 ∧
    ∀ j, j < b.length - 1 → b.getD j 0 ≤ x → x < b.getD (j+1) 0 → j = i

/-- No range [b[i], b[i+1]) reaches past the last row of the matrix. -/
def noCoverageOutside (b : List Nat) (rows : Nat) : Prop :=
  ∀ x i, rows ≤ x → i < b.length - 1 →
    ¬ (b.getD i 0 ≤ x ∧ x < b.getD (i+1) 0)

/-- Sum of the nz metadata fields over the children of a partition. -/
def childNZSum (m : CSR) (b : List Nat) : Nat :=
  ((rowPartitionedView m b).map (fun c => c.metadata.nz)).sum

/-- Claim C3 as stated, at one matrix and partition count: the computed
boundaries yield children whose row ranges tile [0, rows) exactly, and
whose nz fields sum to the parent's nz. -/
def partitionCoverageClaim (m : CSR) (p : Nat) : Prop :=
  coversExactlyOnce (calcRowPartitionBoundaries m p) m.metadata.rows ∧
  noCoverageOutside (calcRowPartitionBoundaries m p) m.metadata.rows ∧
  childNZSum m (calcRowPartitionBoundaries m p) = m.metadata.nz

instance (m : CSR) : Decidable (validCSR m) := by
  unfold validCSR; infer_instance

instance (m : CSR) : Decidable (validCSR0 m) := by
  unfold validCSR0; infer_instance

instance (m : CSR) (b : List Nat) : Decidable (validBoundaries m b) := by
  unfold validBoundaries; infer_instance

/-- Fixture: a store whose metadata declares 8-byte indices. -/
def mdA : SparseMatrixMetadata := ⟨1, 1, 1, 0, 0, some 8, some 8⟩

/-- Fixture store with mdA and all components present. -/
def storeA : ComponentStore := ⟨some mdA, some [0, 1], some [0], some [5]⟩

/-- Fixture: a store whose metadata declares 4-byte indices and 8-byte
values. -/
def mdB : SparseMatrixMetadata := ⟨1, 1, 1, 0, 0, some 4, some 8⟩

/-- Fixture store with mdB and all components present. -/
def storeB : ComponentStore := ⟨some mdB, some [0, 1], some [0], some [5]⟩

/-- The matrix load yields from storeB with matching widths. -/
def loadedB : CSR := ⟨mdB, [0, 1], [0], [5], "m"⟩

/-- Fixture store whose meta component is absent while the three array
components are present. -/
def storeNoMeta : ComponentStore := ⟨none, some [0, 1], some [0], some [5]⟩

/-- Fixture store whose indptr component is absent. -/
def storeNoIndptr : ComponentStore := ⟨some mdB, none, some [0], some [5]⟩

/- ------------------------------------------------------------------ -/
/- Helper lemmas.                                                      -/
/- ------------------------------------------------------------------ -/

lemma getD_drop_add {α : Type} (xs : List α) (d : α) (a j : Nat) :
    (xs.drop a).getD j d = xs.getD (a + j) d := by
  induction a generalizing xs with
  | zero => simp
  | succ a ih =>
    cases xs with
    | nil => simp
    | cons x xs =>
      simp only [List.drop_succ_cons]
      rw [ih xs]
      have h1 : a + 1 + j = (a + j) + 1 := by omega
      rw [h1]
      simp [List.getD_cons_succ]

lemma getD_take_of_lt {α : Type} (xs : List α) (d : α) (k j : Nat) (h : j < k) :
    (xs.take k).getD j d = xs.getD j d := by
  induction xs generalizing k j with
  | nil => simp
  | cons x xs ih =>
    cases k with
    | zero => omega
    | succ k =>
      cases j with
      | zero => simp
      | succ j =>
        simp only [List.take_succ_cons, List.getD_cons_succ]
        exact ih k j (by omega)

lemma getD_range (n i : Nat) (h : i < n) : (List.range n).getD i 0 = i := by
  rw [List.getD_eq_getElem _ _ (by simpa using h)]
  exact List.getElem_range i _

lemma getD_map_range {α : Type} (f : Nat → α) (d : α) (n i : Nat) (h : i < n) :
    ((List.range n).map f).getD i d = f i := by
  rw [List.getD_eq_getElem _ _ (by simpa using h)]
  rw [List.getElem_map]
  congr 1
  exact List.getElem_range i _

lemma chain_le (g : Nat → Nat) (n : Nat)
    (hstep : ∀ r, r < n → g r ≤ g (r+1)) :
    ∀ a c, a ≤ c → c ≤ n → g a ≤ g c := by
  intro a c hac hc
  induction c with
  | zero =>
    have h0 : a = 0 := Nat.le_zero.mp hac
    subst h0; exact le_refl _
  | succ c ih =>
    rcases Nat.lt_or_ge a (c+1) with h | h
    · have h1 : a ≤ c := Nat.lt_succ_iff.mp h
      have h2 : c ≤ n := le_trans (Nat.le_succ c) hc
      exact le_trans (ih h1 h2)
        (hstep c (Nat.lt_of_lt_of_le (Nat.lt_succ_self c) hc))
    · have h1 : a = c + 1 := le_antisymm hac h
      subst h1; exact le_refl _

lemma sum_range_sub_chain (g : Nat → Nat) :
    ∀ n, (∀ i, i < n → g i ≤ g (i+1)) →
      ((List.range n).map (fun i => g (i+1) - g i)).sum = g n - g 0 := by
  intro n
  induction n with
  | zero => intro _; simp
  | succ n ih =>
    intro h
    rw [List.range_succ, List.map_append, List.sum_append]
    rw [ih (fun i hi => h i (lt_trans hi (Nat.lt_succ_self n)))]
    simp only [List.map_cons, List.map_nil, List.sum_cons, List.sum_nil]
    have h0n : g 0 ≤ g n :=
      chain_le g n (fun r hr => h r (lt_trans hr (Nat.lt_succ_self n)))
        0 n (Nat.zero_le n) (le_refl n)
    have hnn : g n ≤ g (n+1) := h n (Nat.lt_succ_self n)
    omega

lemma interval_index_unique (d j q x : Nat)
    (h1 : d * j ≤ x) (h2 : x < d * (j+1))
    (h3 : d * q ≤ x) (h4 : x < d * (q+1)) : j = q := by
  rcases Nat.lt_trichotomy j q with h | h | h
  · exfalso
    have hle : d * (j+1) ≤ d * q := Nat.mul_le_mul (le_refl d) h
    exact Nat.lt_irrefl x (lt_of_lt_of_le h2 (le_trans hle h3))
  · exact h
  · exfalso
    have hle : d * (q+1) ≤ d * j := Nat.mul_le_mul (le_refl d) h
    exact Nat.lt_irrefl x (lt_of_lt_of_le h4 (le_trans hle h1))

lemma calc_length (m : CSR) (p : Nat) :
    (calcRowPartitionBoundaries m p).length = p + 1 := by
  simp [calcRowPartitionBoundaries]

lemma calc_getD_lt (m : CSR) (p i : Nat) (h : i < p) :
    (calcRowPartitionBoundaries m p).getD i 0
      = ((m.metadata.rows + p) / p) * i := by
  unfold calcRowPartitionBoundaries
  rw [List.getD_append _ _ _ _ (by simpa using h)]
  exact getD_map_range _ _ _ _ h

lemma calc_getD_last (m : CSR) (p : Nat) :
    (calcRowPartitionBoundaries m p).getD p 0 = m.metadata.rows := by
  unfold calcRowPartitionBoundaries
  rw [List.getD_append_right _ _ _ _ (by simp)]
  simp

lemma rpv_length (m : CSR) (b : List Nat) :
    (rowPartitionedView m b).length = b.length - 1 := by
  simp [rowPartitionedView]

lemma rpv_getD (m : CSR) (b : List Nat) (i : Nat) (h : i < b.length - 1) :
    (rowPartitionedView m b).getD i emptyCSR = partitionChild m b i := by
  unfold rowPartitionedView
  exact getD_map_range _ _ _ _ h

lemma rpv_mem (m : CSR) (b : List Nat) (c : CSR) :
    c ∈ rowPartitionedView m b ↔
      ∃ i, i < b.length - 1 ∧ c = partitionChild m b i := by
  unfold rowPartitionedView
  simp only [List.mem_map, List.mem_range]
  constructor
  · rintro ⟨i, hi, rfl⟩; exact ⟨i, hi, rfl⟩
  · rintro ⟨i, hi, rfl⟩; exact ⟨i, hi, rfl⟩

lemma eye_indPtrs (dim : Nat) : (eye dim).indPtrs = List.range (dim + 1) := by
  show List.range dim ++ [dim] = List.range (dim + 1)
  exact (List.range_succ dim).symm

lemma eye_indPtrs_getD (dim i : Nat) (h : i ≤ dim) :
    (eye dim).indPtrs.getD i 0 = i := by
  rw [eye_indPtrs]
  exact getD_range _ _ (by omega)

lemma dense_indPtrs_getD (dim i : Nat) (h : i ≤ dim) :
    (dense dim).indPtrs.getD i 0 = i * dim := by
  show ((List.range dim).map (fun i => i * dim) ++ [dim * dim]).getD i 0 = i * dim
  rcases Nat.lt_or_ge i dim with h' | h'
  · rw [List.getD_append _ _ _ _ (by simpa using h')]
    exact getD_map_range _ _ _ _ h'
  · have hi : i = dim := le_antisymm h h'
    subst hi
    rw [List.getD_append_right _ _ _ _ (by simp)]
    simp

lemma take_drop_range_map {α : Type} (f : Nat → α) (N lo hi : Nat)
    (hhi : hi ≤ N) (hlo : lo ≤ hi) :
    (((List.range N).map f).take hi).drop lo
      = (List.range (hi - lo)).map (fun j => f (lo + j)) := by
  apply List.ext_getElem
  · simp only [List.length_drop, List.length_take, List.length_map, List.length_range]
    omega
  · intro j hj1 hj2
    simp only [List.getElem_drop, List.getElem_take, List.getElem_map, List.getElem_range]

lemma itoaRev_eq (n : Nat) :
    itoaRev n = if n = 0 then [Char.ofNat 48]
      else (Nat.digits 10 n).map (fun d => Char.ofNat (d + 48)) := by
  induction n using Nat.strong_induction_on with
  | _ n ih =>
    rw [itoaRev]
    by_cases h0 : n = 0
    · subst h0
      simp
    · have hpos : 0 < n := Nat.pos_of_ne_zero h0
      rw [if_neg h0, Nat.digits_def' (by norm_num : (1:Nat) < 10) hpos]
      by_cases h10 : n / 10 > 0
      · rw [dif_pos h10, ih (n / 10) (Nat.div_lt_self hpos (by norm_num))]
        rw [if_neg (Nat.pos_iff_ne_zero.mp h10)]
        simp
      · rw [dif_neg h10]
        have hz : n / 10 = 0 := Nat.eq_zero_of_not_pos h10
        rw [hz]
        simp

lemma itoa_eq_decimalRepr (n : Nat) : itoa n = decimalRepr n := by
  by_cases h0 : n = 0
  · subst h0
    unfold itoa decimalRepr
    rw [itoaRev_eq, if_pos rfl, if_pos rfl]
    decide
  · unfold itoa decimalRepr
    rw [itoaRev_eq, if_neg h0, if_neg h0]

/- ------------------------------------------------------------------ -/
/- Claim theorems.                                                     -/
/- ------------------------------------------------------------------ -/

/-- C1: for every matrix with r rows and every numPartitions ≥ 1,
calcRowPartitionBoundaries returns numPartitions + 1 entries, with entry i
equal to ((r + numPartitions) / numPartitions) * i (integer division) for
i < numPartitions and the last entry equal to r; in particular on dense(3)
with 3 partitions the result is [0, 2, 4, 3]. -/
theorem C1_calc_boundaries (m : CSR) (p : Nat) (hp : 1 ≤ p) :
    (calcRowPartitionBoundaries m p).length = p + 1 ∧
    (∀ i, i < p → (calcRowPartitionBoundaries m p).getD i 0
        = ((m.metadata.rows + p) / p) * i) ∧
    (calcRowPartitionBoundaries m p).getD p 0 = m.metadata.rows ∧
    calcRowPartitionBoundaries (dense 3) 3 = [0, 2, 4, 3] := by
  exact ⟨calc_length m p, fun i hi => calc_getD_lt m p i hi,
         calc_getD_last m p, by decide⟩

/-- Witness for C1 at a concrete matrix and partition count. -/
theorem C1_witness :
    (calcRowPartitionBoundaries (eye 5) 2).getD 1 0
      = (((eye 5).metadata.rows + 2) / 2) * 1 :=
  (C1_calc_boundaries (eye 5) 2 (by decide)).2.1 1 (by decide)

/-- C2 counterexample: on the zero-row matrix eye 0 with 2 partitions the
boundaries are [0, 1, 0], so the claim that every entry is zero is false. -/
theorem C2_counterexample :
    (eye 0).metadata.rows = 0 ∧
    calcRowPartitionBoundaries (eye 0) 2 = [0, 1, 0] ∧
    ((∀ x ∈ calcRowPartitionBoundaries (eye 0) 2, x = 0) = False) := by
  refine ⟨rfl, by decide, eq_false ?_⟩
  decide

/-- C2 (amended): for every matrix with zero rows and numPartitions ≥ 1,
calcRowPartitionBoundaries returns [0, 1, ..., numPartitions-1, 0] (entry
i equals i, final entry 0, since divSize = numPartitions/numPartitions
= 1); every entry is zero exactly when numPartitions = 1. -/
theorem C2_zero_rows_amended (m : CSR) (p : Nat)
    (h0 : m.metadata.rows = 0) (hp : 1 ≤ p) :
    calcRowPartitionBoundaries m p = List.range p ++ [0] ∧
    ((∀ x ∈ calcRowPartitionBoundaries m p, x = 0) ↔ p = 1) := by
  have hb : calcRowPartitionBoundaries m p = List.range p ++ [0] := by
    simp only [calcRowPartitionBoundaries, h0, Nat.zero_add, Nat.div_self hp,
      one_mul]
    simp
  refine ⟨hb, ?_⟩
  rw [hb]
  constructor
  · intro hall
    by_contra hne
    have h2 : 2 ≤ p := by omega
    have h1 : (1 : Nat) = 0 :=
      hall 1 (List.mem_append.mpr (Or.inl (List.mem_range.mpr (by omega))))
    omega
  · intro hp1
    subst hp1
    decide

/-- Witness for C2's amended theorem at the zero-row matrix eye 0. -/
theorem C2_witness :
    calcRowPartitionBoundaries (eye 0) 1 = List.range 1 ++ [0] ∧
    ((∀ x ∈ calcRowPartitionBoundaries (eye 0) 1, x = 0) ↔ (1 : Nat) = 1) :=
  C2_zero_rows_amended (eye 0) 1 rfl (le_refl 1)

/-- C5: for every dim ≥ 1, eye dim is square with rows = cols = dim and
nz = dim, indPtrs[i] = i for i ≤ dim, inds[i] = i, nzData[i] = 1, and the
only stored entry of row i is at column i with value 1. -/
theorem C5_eye_spec (dim : Nat) (hdim : 1 ≤ dim) :
    (eye dim).metadata.rows = dim ∧
    (eye dim).metadata.cols = dim ∧
    isSquare (eye dim) = true ∧
    (eye dim).metadata.nz = dim ∧
    (eye dim).indPtrs.length = dim + 1 ∧
    (∀ i, i ≤ dim → (eye dim).indPtrs.getD i 0 = i) ∧
    (∀ i, i < dim → (eye dim).inds.getD i 0 = i) ∧
    (∀ i, i < dim → (eye dim).nzData.getD i 0 = 1) ∧
    (∀ i, i < dim → rowCols (eye dim) i = [i] ∧ rowVals (eye dim) i = [1]) := by
  refine ⟨rfl, rfl, beq_self_eq_true dim, rfl, by simp [eye_indPtrs],
    fun i hi => eye_indPtrs_getD dim i hi,
    fun i hi => getD_range dim i hi,
    fun i hi => ?_, fun i hi => ⟨?_, ?_⟩⟩
  · show (List.replicate dim (1 : Int)).getD i 0 = 1
    rw [List.getD_eq_getElem _ _ (by simpa using hi)]
    exact List.getElem_replicate ..
  · unfold rowCols
    rw [eye_indPtrs_getD dim (i+1) (by omega), eye_indPtrs_getD dim i (by omega)]
    show ((List.range dim).take (i+1)).drop i = [i]
    rw [List.take_range, Nat.min_eq_left (by omega), List.range_succ]
    exact List.drop_left' (List.length_range i)
  · unfold rowVals
    rw [eye_indPtrs_getD dim (i+1) (by omega), eye_indPtrs_getD dim i (by omega)]
    show ((List.replicate dim (1 : Int)).take (i+1)).drop i = [1]
    rw [List.take_replicate, Nat.min_eq_left (by omega), List.replicate_succ']
    rw [List.drop_left' (List.length_replicate i 1)]

/-- Witness for C5 at dim = 3, row 1. -/
theorem C5_witness : rowCols (eye 3) 1 = [1] ∧ rowVals (eye 3) 1 = [1] :=
  (C5_eye_spec 3 (by decide)).2.2.2.2.2.2.2.2 1 (by decide)

/-- C6: for every dim ≥ 1, dense dim has rows = cols = dim, nz = dim*dim,
indPtrs[i] = i*dim for i ≤ dim, inds[k] = k % dim and nzData[k] = k+1 for
k < dim*dim, so row r holds exactly columns 0..dim-1 with values
r*dim+1 .. r*dim+dim; concretely dense 3 has indPtrs [0,3,6,9], inds
[0,1,2,0,1,2,0,1,2] and nzData [1,...,9]. -/
theorem C6_dense_spec (dim : Nat) (hdim : 1 ≤ dim) :
    (dense dim).metadata.rows = dim ∧
    (dense dim).metadata.cols = dim ∧
    (dense dim).metadata.nz = dim * dim ∧
    (∀ i, i ≤ dim → (dense dim).indPtrs.getD i 0 = i * dim) ∧
    (∀ k, k < dim * dim → (dense dim).inds.getD k 0 = k % dim) ∧
    (∀ k, k < dim * dim → (dense dim).nzData.getD k 0 = ((k + 1 : Nat) : Int)) ∧
    (∀ r, r < dim → rowCols (dense dim) r = List.range dim ∧
      rowVals (dense dim) r
        = (List.range dim).map (fun j => ((r * dim + j + 1 : Nat) : Int))) ∧
    (dense 3).indPtrs = [0, 3, 6, 9] ∧
    (dense 3).inds = [0, 1, 2, 0, 1, 2, 0, 1, 2] ∧
    (dense 3).nzData = [1, 2, 3, 4, 5, 6, 7, 8, 9] := by
  have hdi : ∀ r, r < dim → (r+1) * dim ≤ dim * dim ∧ r * dim ≤ (r+1) * dim ∧
      (r+1) * dim - r * dim = dim := by
    intro r hr
    have h1 : (r+1) * dim ≤ dim * dim := Nat.mul_le_mul (by omega) (le_refl dim)
    have h2 : (r+1) * dim = r * dim + dim := by ring
    exact ⟨h1, by omega, by omega⟩
  refine ⟨rfl, rfl, rfl, fun i hi => dense_indPtrs_getD dim i hi,
    fun k hk => ?_, fun k hk => ?_, fun r hr => ⟨?_, ?_⟩,
    by decide, by decide, by decide⟩
  · show ((List.range (dim*dim)).map (fun k => k % dim)).getD k 0 = k % dim
    exact getD_map_range _ _ _ _ hk
  · show ((List.range (dim*dim)).map (fun k => ((k + 1 : Nat) : Int))).getD k 0
        = ((k + 1 : Nat) : Int)
    exact getD_map_range _ _ _ _ hk
  · obtain ⟨h1, h2, h3⟩ := hdi r hr
    unfold rowCols
    rw [dense_indPtrs_getD dim (r+1) (by omega), dense_indPtrs_getD dim r (by omega)]
    show (((List.range (dim*dim)).map (fun k => k % dim)).take ((r+1) * dim)).drop (r * dim)
        = List.range dim
    rw [take_drop_range_map _ _ _ _ h1 h2, h3]
    have hcongr : (List.range dim).map (fun j => (r * dim + j) % dim)
        = (List.range dim).map (fun j => j) := by
      apply List.map_congr_left
      intro j hj
      have hj' : j < dim := List.mem_range.mp hj
      rw [mul_comm r dim, Nat.mul_add_mod, Nat.mod_eq_of_lt hj']
    rw [hcongr]
    simp
  · obtain ⟨h1, h2, h3⟩ := hdi r hr
    unfold rowVals
    rw [dense_indPtrs_getD dim (r+1) (by omega), dense_indPtrs_getD dim r (by omega)]
    show (((List.range (dim*dim)).map (fun k => ((k + 1 : Nat) : Int))).take ((r+1) * dim)).drop (r * dim)
        = (List.range dim).map (fun j => ((r * dim + j + 1 : Nat) : Int))
    rw [take_drop_range_map _ _ _ _ h1 h2, h3]

/-- Witness for C6 at dim = 2, row 1. -/
theorem C6_witness :
    rowCols (dense 2) 1 = List.range 2 ∧
    rowVals (dense 2) 1 = (List.range 2).map (fun j => ((1 * 2 + j + 1 : Nat) : Int)) :=
  (C6_dense_spec 2 (by decide)).2.2.2.2.2.2.1 1 (by decide)

/-- C10: eye and dense assign only rows, cols, nz, startingRow and
startingCol, leaving bytesPerInd and bytesPerVal unassigned (modelled as
none), and every child of rowPartitionedView copies its parent's
bytesPerInd and bytesPerVal values, whatever they are. -/
theorem C10_frame :
    (∀ dim, (eye dim).metadata.bytesPerInd = none ∧
      (eye dim).metadata.bytesPerVal = none ∧
      (dense dim).metadata.bytesPerInd = none ∧
      (dense dim).metadata.bytesPerVal = none) ∧
    (∀ m b c, c ∈ rowPartitionedView m b →
      c.metadata.bytesPerInd = m.metadata.bytesPerInd ∧
      c.metadata.bytesPerVal = m.metadata.bytesPerVal) := by
  refine ⟨fun dim => ⟨rfl, rfl, rfl, rfl⟩, fun m b c hc => ?_⟩
  rcases (rpv_mem m b c).mp hc with ⟨i, hi, rfl⟩
  exact ⟨rfl, rfl⟩

/-- Witness for C10's child clause at a concrete partition of eye 2. -/
theorem C10_witness :
    ((rowPartitionedView (eye 2) [0, 1, 2]).getD 0 emptyCSR).metadata.bytesPerInd
        = (eye 2).metadata.bytesPerInd ∧
    ((rowPartitionedView (eye 2) [0, 1, 2]).getD 0 emptyCSR).metadata.bytesPerVal
        = (eye 2).metadata.bytesPerVal :=
  C10_frame.2 (eye 2) [0, 1, 2] _
    ((rpv_mem (eye 2) [0, 1, 2] _).mpr
      ⟨0, by decide, rpv_getD (eye 2) [0, 1, 2] 0 (by decide)⟩)

/-- C4: for every matrix and every valid (monotone, 0-to-rows) boundary
sequence, child i of rowPartitionedView has rows = b[i+1] - b[i], cols and
the two byte-width fields copied from the parent, nz =
parent.indPtrs[b[i+1]] - parent.indPtrs[b[i]], startingRow = b[i],
startingCol = 0; its indPtrs is the parent's indPtrs sequence from offset
b[i] (values not renormalized), its inds and nzData are the parent's
sequences from offset parent.indPtrs[b[i]], and its name is the parent's
name followed by "-p" and the decimal representation of i. -/
theorem C4_child_fields (m : CSR) (b : List Nat) (i : Nat)
    (hb : validBoundaries m b) (hi : i < b.length - 1) :
    (rowPartitionedView m b).getD i emptyCSR = partitionChild m b i ∧
    (partitionChild m b i).metadata.rows = b.getD (i+1) 0 - b.getD i 0 ∧
    (partitionChild m b i).metadata.cols = m.metadata.cols ∧
    (partitionChild m b i).metadata.nz
      = m.indPtrs.getD (b.getD (i+1) 0) 0 - m.indPtrs.getD (b.getD i 0) 0 ∧
    (partitionChild m b i).metadata.startingRow = b.getD i 0 ∧
    (partitionChild m b i).metadata.startingCol = 0 ∧
    (partitionChild m b i).metadata.bytesPerInd = m.metadata.bytesPerInd ∧
    (partitionChild m b i).metadata.bytesPerVal = m.metadata.bytesPerVal ∧
    (partitionChild m b i).indPtrs = m.indPtrs.drop (b.getD i 0) ∧
    (partitionChild m b i).inds = m.inds.drop (m.indPtrs.getD (b.getD i 0) 0) ∧
    (partitionChild m b i).nzData = m.nzData.drop (m.indPtrs.getD (b.getD i 0) 0) ∧
    (partitionChild m b i).name = m.name ++ "-p" ++ decimalRepr i := by
  refine ⟨rpv_getD m b i hi, rfl, rfl, rfl, rfl, rfl, rfl, rfl, rfl, rfl, rfl, ?_⟩
  show m.name ++ "-p" ++ itoa i = m.name ++ "-p" ++ decimalRepr i
  rw [itoa_eq_decimalRepr]

/-- Witness for C4 at a concrete partition of dense 3. -/
theorem C4_witness :
    (partitionChild (dense 3) [0, 2, 3] 1).name
        = (dense 3).name ++ "-p" ++ decimalRepr 1 ∧
    (partitionChild (dense 3) [0, 2, 3] 1).metadata.rows
        = [0, 2, 3].getD 2 0 - [0, 2, 3].getD 1 0 :=
  ⟨(C4_child_fields (dense 3) [0, 2, 3] 1 (by decide) (by decide)).2.2.2.2.2.2.2.2.2.2.2,
   (C4_child_fields (dense 3) [0, 2, 3] 1 (by decide) (by decide)).2.1⟩

/-- C7: if the stored metadata declares a bytesPerInd different from the
chosen index width, load throws the index-width type mismatch with either
value of genNZData; if bytesPerInd matches and bytesPerVal differs from
the chosen value width, load throws the value-width type mismatch exactly
when genNZData is false — with genNZData true no type mismatch can be
thrown. -/
theorem C7_type_mismatch :
    (∀ (s : ComponentStore) (md : SparseMatrixMetadata) (iw vw : Nat)
        (nm : String) (g : Bool),
      s.meta = some md → md.bytesPerInd ≠ some iw →
      load s iw vw nm g
        = .error (.typeMismatch "bytesPerInd mismatch in CSR::load")) ∧
    (∀ (s : ComponentStore) (md : SparseMatrixMetadata) (iw vw : Nat)
        (nm : String),
      s.meta = some md → md.bytesPerInd = some iw → md.bytesPerVal ≠ some vw →
      load s iw vw nm false
          = .error (.typeMismatch
              "bytesPerVal mismatch in CSR::load -- consider using genNZData") ∧
      isTypeMismatchResult (load s iw vw nm true) = false) := by
  constructor
  · intro s md iw vw nm g hm hne
    simp [load, hm, hne]
  · intro s md iw vw nm hm hiw hvw
    constructor
    · simp [load, hm, hiw, hvw]
    · rcases hip : s.indptr with _ | ips
      · simp [load, hm, hiw, hip, isTypeMismatchResult]
      · rcases hin : s.inds with _ | iss
        · simp [load, hm, hiw, hip, hin, isTypeMismatchResult]
        · simp [load, hm, hiw, hip, hin, isTypeMismatchResult]

/-- Witness for C7 at concrete stores: storeA declares 8-byte indices and
is loaded with 4-byte indices; storeB declares 8-byte values and is loaded
with 2-byte values. -/
theorem C7_witness :
    load storeA 4 8 "m" false
        = .error (.typeMismatch "bytesPerInd mismatch in CSR::load") ∧
    load storeB 4 2 "m" false
        = .error (.typeMismatch
            "bytesPerVal mismatch in CSR::load -- consider using genNZData") ∧
    isTypeMismatchResult (load storeB 4 2 "m" true) = false :=
  ⟨C7_type_mismatch.1 storeA mdA 4 8 "m" false rfl (by decide),
   (C7_type_mismatch.2 storeB mdB 4 2 "m" rfl rfl (by decide)).1,
   (C7_type_mismatch.2 storeB mdB 4 2 "m" rfl rfl (by decide)).2⟩

/-- C8: evaluation at the failing input.  The claim says an absent "meta"
component produces a FormatError like the other components; in the code
the meta buffer is dereferenced without a null check (CSR.hpp line 58), so
an absent meta component is a null-pointer dereference — modelled as
nullDeref — and not a format error, with either value of genNZData.  For
contrast, an absent indptr component does produce the format throw. -/
theorem C8_absent_meta_eval :
    load storeNoMeta 4 8 "m" false = .error .nullDeref ∧
    load storeNoMeta 4 8 "m" true = .error .nullDeref ∧
    isFormatResult (load storeNoMeta 4 8 "m" false) = false ∧
    isFormatResult (load storeNoMeta 4 8 "m" true) = false ∧
    load storeNoIndptr 4 8 "m" false
        = .error (.format "could not load indptr in CSR::load") ∧
    load storeNoIndptr 4 8 "m" true
        = .error (.format "could not load indptr in CSR::load") := by
  exact ⟨rfl, rfl, rfl, rfl, rfl, rfl⟩

lemma trim_child_ip (m : CSR) (b : List Nat) (i j : Nat)
    (hj : j ≤ b.getD (i+1) 0 - b.getD i 0) :
    (viewTrim (partitionChild m b i)).indPtrs.getD j 0
      = m.indPtrs.getD (b.getD i 0 + j) 0 := by
  show ((m.indPtrs.drop (b.getD i 0)).take ((b.getD (i+1) 0 - b.getD i 0) + 1)).getD j 0
      = m.indPtrs.getD (b.getD i 0 + j) 0
  rw [getD_take_of_lt _ _ _ _ (by omega), getD_drop_add]

lemma partitionChild_trim_valid (m : CSR) (b : List Nat)
    (hm : validCSR0 m) (hb : validBoundaries m b)
    (i : Nat) (hi : i < b.length - 1) :
    validCSR (viewTrim (partitionChild m b i)) := by
  obtain ⟨⟨hlen, hindslen, hnzlen, hmono, hmono2, hcols, hnzeq⟩, hbound⟩ := hm
  obtain ⟨hblen, hb0, hblast, hbmono⟩ := hb
  have hchain : ∀ a c, a ≤ c → c ≤ b.length - 1 → b.getD a 0 ≤ b.getD c 0 :=
    chain_le (fun t => b.getD t 0) (b.length - 1) hbmono
  have hble : ∀ j, j ≤ b.length - 1 → b.getD j 0 ≤ m.metadata.rows := by
    intro j hj
    have h1 := hchain j (b.length - 1) hj (le_refl _)
    rwa [hblast] at h1
  have hipchain : ∀ a c, a ≤ c → c ≤ m.metadata.rows →
      m.indPtrs.getD a 0 ≤ m.indPtrs.getD c 0 :=
    chain_le (fun t => m.indPtrs.getD t 0) m.metadata.rows hmono
  have hbi : b.getD i 0 ≤ b.getD (i+1) 0 := hbmono i hi
  have hbi1r : b.getD (i+1) 0 ≤ m.metadata.rows := hble (i+1) (by omega)
  have hbir : b.getD i 0 ≤ m.metadata.rows := le_trans hbi hbi1r
  have hip_le : m.indPtrs.getD (b.getD i 0) 0 ≤ m.indPtrs.getD (b.getD (i+1) 0) 0 :=
    hipchain _ _ hbi hbi1r
  have hipnz : m.indPtrs.getD (b.getD (i+1) 0) 0 ≤ m.metadata.nz ∨ b.getD (i+1) 0 = 0 := by
    rcases Nat.eq_zero_or_pos (b.getD (i+1) 0) with h0 | hpos
    · exact Or.inr h0
    · left
      have h1 := hbound (b.getD (i+1) 0 - 1) (by omega)
      rwa [show b.getD (i+1) 0 - 1 + 1 = b.getD (i+1) 0 from by omega] at h1
  have hco : b.getD i 0 + (b.getD (i+1) 0 - b.getD i 0) = b.getD (i+1) 0 := by omega
  refine ⟨?_, ?_, ?_, ?_, ?_, ?_, ?_⟩
  · show ((m.indPtrs.drop (b.getD i 0)).take ((b.getD (i+1) 0 - b.getD i 0) + 1)).length
        = (b.getD (i+1) 0 - b.getD i 0) + 1
    rw [List.length_take, List.length_drop, hlen]
    omega
  · show ((m.inds.drop (m.indPtrs.getD (b.getD i 0) 0)).take
          (m.indPtrs.getD (b.getD (i+1) 0) 0 - m.indPtrs.getD (b.getD i 0) 0)).length
        = m.indPtrs.getD (b.getD (i+1) 0) 0 - m.indPtrs.getD (b.getD i 0) 0
    rw [List.length_take, List.length_drop, hindslen]
    rcases hipnz with h | h
    · omega
    · have h2 : b.getD i 0 = 0 := by omega
      rw [h, h2]
      omega
  · show ((m.nzData.drop (m.indPtrs.getD (b.getD i 0) 0)).take
          (m.indPtrs.getD (b.getD (i+1) 0) 0 - m.indPtrs.getD (b.getD i 0) 0)).length
        = m.indPtrs.getD (b.getD (i+1) 0) 0 - m.indPtrs.getD (b.getD i 0) 0
    rw [List.length_take, List.length_drop, hnzlen]
    rcases hipnz with h | h
    · omega
    · have h2 : b.getD i 0 = 0 := by omega
      rw [h, h2]
      omega
  · intro t ht
    have ht' : t < b.getD (i+1) 0 - b.getD i 0 := ht
    rw [trim_child_ip m b i t (by omega), trim_child_ip m b i (t+1) (by omega)]
    have h1 := hmono (b.getD i 0 + t) (by omega)
    rwa [show b.getD i 0 + t + 1 = b.getD i 0 + (t + 1) from by omega] at h1
  · intro t ht
    have ht' : t < b.getD (i+1) 0 - b.getD i 0 := ht
    have hmr : (viewTrim (partitionChild m b i)).metadata.rows
        = b.getD (i+1) 0 - b.getD i 0 := rfl
    rw [hmr, trim_child_ip m b i (t+1) (by omega),
        trim_child_ip m b i (b.getD (i+1) 0 - b.getD i 0) (le_refl _), hco]
    exact hipchain _ _ (by omega) hbi1r
  · intro c' hc'
    have h1 : c' ∈ m.inds :=
      List.drop_subset _ _ (List.take_subset _ _ hc')
    exact hcols c' h1
  · have hmr : (viewTrim (partitionChild m b i)).metadata.rows
        = b.getD (i+1) 0 - b.getD i 0 := rfl
    rw [hmr, trim_child_ip m b i (b.getD (i+1) 0 - b.getD i 0) (le_refl _),
        trim_child_ip m b i 0 (Nat.zero_le _), hco, Nat.add_zero]
    rfl

lemma eye_valid0 (dim : Nat) : validCSR0 (eye dim) := by
  refine ⟨⟨?_, ?_, ?_, ?_, ?_, ?_, ?_⟩, ?_⟩
  · show (List.range dim ++ [dim]).length = dim + 1
    simp
  · show (List.range dim).length = dim
    simp
  · show (List.replicate dim (1 : Int)).length = dim
    simp
  · intro r hr
    have hr' : r < dim := hr
    rw [eye_indPtrs_getD dim r (by omega), eye_indPtrs_getD dim (r+1) (by omega)]
    omega
  · intro r hr
    have hr' : r < dim := hr
    show (eye dim).indPtrs.getD (r+1) 0 ≤ (eye dim).indPtrs.getD dim 0
    rw [eye_indPtrs_getD dim (r+1) (by omega), eye_indPtrs_getD dim dim (le_refl _)]
    omega
  · intro c hc
    have hc' : c ∈ List.range dim := hc
    exact List.mem_range.mp hc'
  · show dim = (eye dim).indPtrs.getD dim 0 - (eye dim).indPtrs.getD 0 0
    rw [eye_indPtrs_getD dim dim (le_refl _), eye_indPtrs_getD dim 0 (Nat.zero_le _)]
    omega
  · intro r hr
    have hr' : r < dim := hr
    show (eye dim).indPtrs.getD (r+1) 0 ≤ dim
    rw [eye_indPtrs_getD dim (r+1) (by omega)]
    omega

lemma dense_valid0 (dim : Nat) : validCSR0 (dense dim) := by
  refine ⟨⟨?_, ?_, ?_, ?_, ?_, ?_, ?_⟩, ?_⟩
  · show ((List.range dim).map (fun i => i * dim) ++ [dim * dim]).length = dim + 1
    simp
  · show ((List.range (dim * dim)).map (fun k => k % dim)).length = dim * dim
    simp
  · show ((List.range (dim * dim)).map (fun k => ((k + 1 : Nat) : Int))).length = dim * dim
    simp
  · intro r hr
    have hr' : r < dim := hr
    rw [dense_indPtrs_getD dim r (by omega), dense_indPtrs_getD dim (r+1) (by omega)]
    exact Nat.mul_le_mul (by omega) (le_refl dim)
  · intro r hr
    have hr' : r < dim := hr
    show (dense dim).indPtrs.getD (r+1) 0 ≤ (dense dim).indPtrs.getD dim 0
    rw [dense_indPtrs_getD dim (r+1) (by omega), dense_indPtrs_getD dim dim (le_refl _)]
    exact Nat.mul_le_mul (by omega) (le_refl dim)
  · intro c hc
    have hc' : c ∈ (List.range (dim * dim)).map (fun k => k % dim) := hc
    rcases List.mem_map.mp hc' with ⟨k, hk, rfl⟩
    have hdim : 0 < dim := by
      rcases Nat.eq_zero_or_pos dim with h | h
      · rw [h] at hk; simp at hk
      · exact h
    show k % dim < (dense dim).metadata.cols
    exact Nat.mod_lt k hdim
  · show dim * dim = (dense dim).indPtrs.getD dim 0 - (dense dim).indPtrs.getD 0 0
    rw [dense_indPtrs_getD dim dim (le_refl _), dense_indPtrs_getD dim 0 (Nat.zero_le _)]
    rw [Nat.zero_mul]
    omega
  · intro r hr
    have hr' : r < dim := hr
    show (dense dim).indPtrs.getD (r+1) 0 ≤ dim * dim
    rw [dense_indPtrs_getD dim (r+1) (by omega)]
    exact Nat.mul_le_mul (by omega) (le_refl dim)

lemma load_valid0 (s : ComponentStore) (iw vw : Nat) (nm : String) (g : Bool)
    (m' : CSR) (hwf : storeWellFormed s) (hok : load s iw vw nm g = .ok m') :
    validCSR0 m' := by
  rcases hm : s.meta with _ | md
  · simp [load, hm] at hok
  · by_cases h1 : md.bytesPerInd ≠ some iw
    · simp [load, hm, h1] at hok
    · have h1' : md.bytesPerInd = some iw := not_not.mp h1
      rcases hip : s.indptr with _ | ips
      · by_cases h2 : md.bytesPerVal ≠ some vw ∧ g = false
        · simp [load, hm, h1', h2] at hok
        · simp [load, hm, h1', h2, hip] at hok
      · rcases hin : s.inds with _ | iss
        · by_cases h2 : md.bytesPerVal ≠ some vw ∧ g = false
          · simp [load, hm, h1', h2] at hok
          · simp [load, hm, h1', h2, hip, hin] at hok
        · obtain ⟨hl1, hl2, hl3, hl4, hl5, hl6, hl7⟩ := hwf md ips iss hm hip hin
          have hm2 : ∀ r, r < md.rows → ips.getD (r+1) 0 ≤ ips.getD md.rows 0 := by
            intro r hr
            have ha := hl4 r hr
            have hb2 : ips.getD 0 0 ≤ ips.getD md.rows 0 :=
              chain_le (fun t => ips.getD t 0) md.rows hl3 0 md.rows
                (Nat.zero_le _) (le_refl _)
            omega
          cases g with
          | true =>
            simp [load, hm, h1', hip, hin] at hok
            subst hok
            refine ⟨⟨hl1, hl2, ?_, hl3, hm2, hl5, hl6⟩, hl4⟩
            show ((List.range md.nz).map (fun i => ((i + 1 : Nat) : Int))).length = md.nz
            simp
          | false =>
            by_cases h2 : md.bytesPerVal ≠ some vw
            · simp [load, hm, h1', h2] at hok
            · have h2' : md.bytesPerVal = some vw := not_not.mp h2
              rcases hnz : s.nzdata with _ | nzd
              · simp [load, hm, h1', h2', hip, hin, hnz] at hok
              · simp [load, hm, h1', h2', hip, hin, hnz] at hok
                subst hok
                exact ⟨⟨hl1, hl2, hl7 nzd hnz, hl3, hm2, hl5, hl6⟩, hl4⟩

/-- C9: every matrix from the three origin paths — eye, dense, or a load
that succeeded against a store holding a section-3-valid matrix —
satisfies the section-3 invariants (array lengths rows+1 / nz / nz,
index-pointer monotonicity bounded by indPtrs[rows], in-range column
indices, nz = indPtrs[rows] - indPtrs[0]); and every child produced by
rowPartitionedView from such a matrix with valid boundaries satisfies them
as well, its sequences being the rows+1 and nz entry windows of the
aliased parent buffers. -/
theorem C9_invariants :
    (∀ dim, validCSR (eye dim)) ∧
    (∀ dim, validCSR (dense dim)) ∧
    (∀ s iw vw nm g m', storeWellFormed s → load s iw vw nm g = .ok m' →
      validCSR m') ∧
    (∀ m b, validCSR0 m → validBoundaries m b →
      ∀ c ∈ rowPartitionedView m b, validCSR (viewTrim c)) := by
  refine ⟨fun dim => (eye_valid0 dim).1, fun dim => (dense_valid0 dim).1,
    fun s iw vw nm g m' hwf hok => (load_valid0 s iw vw nm g m' hwf hok).1,
    fun m b hm hb c hc => ?_⟩
  rcases (rpv_mem m b c).mp hc with ⟨i, hi, rfl⟩
  exact partitionChild_trim_valid m b hm hb i hi

/-- Witness for C9: eye 2, dense 2, a successful load from storeB, and the
first child of a two-way partition of dense 2. -/
theorem C9_witness :
    validCSR (eye 2) ∧ validCSR (dense 2) ∧ validCSR loadedB ∧
    validCSR (viewTrim (partitionChild (dense 2) [0, 1, 2] 0)) :=
  ⟨C9_invariants.1 2, C9_invariants.2.1 2,
   C9_invariants.2.2.1 storeB 4 8 "m" false loadedB
     (by
       intro md ips iss h1 h2 h3
       injection h1 with h1
       injection h2 with h2
       injection h3 with h3
       subst h1; subst h2; subst h3
       refine ⟨by decide, by decide, by decide, by decide, by decide,
         by decide, ?_⟩
       intro nzd h
       injection h with h
       subst h
       decide)
     rfl,
   C9_invariants.2.2.2 (dense 2) [0, 1, 2] (by decide) (by decide)
     (partitionChild (dense 2) [0, 1, 2] 0)
     ((rpv_mem (dense 2) [0, 1, 2] (partitionChild (dense 2) [0, 1, 2] 0)).mpr
       ⟨0, by decide, rfl⟩)⟩

/-- C3 counterexample: dense 3 with numPartitions = 3 (within [1, rows])
yields boundaries [0, 2, 4, 3]; the second child has startingRow 2 and
rows 2, so its row range [2, 4) reaches past the 3 rows of the parent, and
the claimed exact coverage of [0, rows) fails. -/
theorem C3_counterexample :
    validCSR (dense 3) ∧ (1 : Nat) ≤ 3 ∧ 3 ≤ (dense 3).metadata.rows ∧
    calcRowPartitionBoundaries (dense 3) 3 = [0, 2, 4, 3] ∧
    (partitionChild (dense 3) (calcRowPartitionBoundaries (dense 3) 3) 1).metadata.startingRow = 2 ∧
    (partitionChild (dense 3) (calcRowPartitionBoundaries (dense 3) 3) 1).metadata.rows = 2 ∧
    partitionCoverageClaim (dense 3) 3 = False := by
  refine ⟨by decide, by decide, by decide, by decide, by decide, by decide,
    eq_false ?_⟩
  intro h
  exact h.2.1 3 1 (by decide) (by decide) ⟨by decide, by decide⟩

/-- C3 (amended): for every valid matrix and numPartitions in [1, rows]
such that the next-to-last computed boundary does not overshoot —
((rows + numPartitions)/numPartitions) * (numPartitions - 1) ≤ rows, i.e.
the boundary sequence is monotone — the boundary ranges from
calcRowPartitionBoundaries cover [0, rows) exactly once with no gaps,
overlaps or spill past rows, and the children's nz fields sum to the
parent's nz. -/
theorem C3_partition_coverage_amended (m : CSR) (p : Nat)
    (hv : validCSR m) (hp : 1 ≤ p) (hpr : p ≤ m.metadata.rows)
    (hfit : ((m.metadata.rows + p) / p) * (p - 1) ≤ m.metadata.rows) :
    partitionCoverageClaim m p := by
  obtain ⟨hlen, hindslen, hnzlen, hmono, hmono2, hcols, hnzeq⟩ := hv
  have hd1 : 1 ≤ (m.metadata.rows + p) / p :=
    (Nat.one_le_div_iff (by omega)).mpr (by omega)
  have hipchain : ∀ a c, a ≤ c → c ≤ m.metadata.rows →
      m.indPtrs.getD a 0 ≤ m.indPtrs.getD c 0 :=
    chain_le (fun t => m.indPtrs.getD t 0) m.metadata.rows hmono
  refine ⟨?_, ?_, ?_⟩
  · intro x hx
    by_cases hcase : x < (m.metadata.rows + p) / p * (p - 1)
    · have hdpos : 0 < (m.metadata.rows + p) / p := hd1
      have hidx : x / ((m.metadata.rows + p) / p) < p - 1 :=
        (Nat.div_lt_iff_lt_mul hdpos).mpr (by rw [mul_comm]; exact hcase)
      have hlow : (m.metadata.rows + p) / p * (x / ((m.metadata.rows + p) / p)) ≤ x := by
        rw [mul_comm]
        exact Nat.div_mul_le_self x _
      have hhigh : x < (m.metadata.rows + p) / p * (x / ((m.metadata.rows + p) / p) + 1) := by
        have h1 := Nat.div_add_mod x ((m.metadata.rows + p) / p)
        have h2 := Nat.mod_lt x hdpos
        have h3 : (m.metadata.rows + p) / p * (x / ((m.metadata.rows + p) / p) + 1)
            = (m.metadata.rows + p) / p * (x / ((m.metadata.rows + p) / p))
              + (m.metadata.rows + p) / p := by ring
        omega
      refine ⟨x / ((m.metadata.rows + p) / p), ?_, ?_, ?_, ?_⟩
      · rw [calc_length]
        omega
      · rw [calc_getD_lt m p _ (by omega)]
        exact hlow
      · rw [calc_getD_lt m p _ (by omega)]
        exact hhigh
      · intro j hj hj1 hj2
        rw [calc_length] at hj
        have hjp : j < p := by omega
        rcases Nat.lt_or_ge (j+1) p with hj1p | hj1p
        · rw [calc_getD_lt m p j (by omega)] at hj1
          rw [calc_getD_lt m p (j+1) hj1p] at hj2
          exact interval_index_unique _ j _ x hj1 hj2 hlow hhigh
        · exfalso
          have hjeq : j = p - 1 := by omega
          rw [calc_getD_lt m p j (by omega), hjeq] at hj1
          omega
    · have hcase' : (m.metadata.rows + p) / p * (p - 1) ≤ x := Nat.le_of_not_lt hcase
      refine ⟨p - 1, ?_, ?_, ?_, ?_⟩
      · rw [calc_length]
        omega
      · rw [calc_getD_lt m p (p-1) (by omega)]
        exact hcase'
      · rw [show p - 1 + 1 = p from by omega, calc_getD_last]
        exact hx
      · intro j hj hj1 hj2
        rw [calc_length] at hj
        have hjp : j < p := by omega
        rcases Nat.lt_or_ge (j+1) p with hj1p | hj1p
        · exfalso
          rw [calc_getD_lt m p (j+1) hj1p] at hj2
          have hle : (m.metadata.rows + p) / p * (j+1)
              ≤ (m.metadata.rows + p) / p * (p-1) :=
            Nat.mul_le_mul (le_refl _) (by omega)
          omega
        · omega
  · intro x j hxr hj
    rintro ⟨hj1, hj2⟩
    rw [calc_length] at hj
    have hjp : j < p := by omega
    rcases Nat.lt_or_ge (j+1) p with hj1p | hj1p
    · rw [calc_getD_lt m p (j+1) hj1p] at hj2
      have hle : (m.metadata.rows + p) / p * (j+1)
          ≤ (m.metadata.rows + p) / p * (p-1) :=
        Nat.mul_le_mul (le_refl _) (by omega)
      omega
    · rw [show j + 1 = p from by omega, calc_getD_last] at hj2
      omega
  · have hgm : ∀ i, i < p →
        m.indPtrs.getD ((calcRowPartitionBoundaries m p).getD i 0) 0
          ≤ m.indPtrs.getD ((calcRowPartitionBoundaries m p).getD (i+1) 0) 0 := by
      intro i hi
      rcases Nat.lt_or_ge (i+1) p with h | h
      · rw [calc_getD_lt m p i (by omega), calc_getD_lt m p (i+1) h]
        apply hipchain
        · exact Nat.mul_le_mul (le_refl _) (by omega)
        · have hle : (m.metadata.rows + p) / p * (i+1)
              ≤ (m.metadata.rows + p) / p * (p-1) :=
            Nat.mul_le_mul (le_refl _) (by omega)
          omega
      · rw [show i + 1 = p from by omega, calc_getD_last,
            calc_getD_lt m p i (by omega)]
        apply hipchain
        · have hle : (m.metadata.rows + p) / p * i
              ≤ (m.metadata.rows + p) / p * (p-1) :=
            Nat.mul_le_mul (le_refl _) (by omega)
          omega
        · exact le_refl _
    have hsum := sum_range_sub_chain
        (fun t => m.indPtrs.getD ((calcRowPartitionBoundaries m p).getD t 0) 0)
        p hgm
    simp only [] at hsum
    rw [calc_getD_last] at hsum
    have hg0 : (calcRowPartitionBoundaries m p).getD 0 0 = 0 := by
      rw [calc_getD_lt m p 0 (by omega), Nat.mul_zero]
    rw [hg0] at hsum
    have hlenb : (calcRowPartitionBoundaries m p).length - 1 = p := by
      rw [calc_length]
      omega
    show childNZSum m (calcRowPartitionBoundaries m p) = m.metadata.nz
    unfold childNZSum rowPartitionedView
    rw [hlenb, List.map_map]
    have hfinal : ((List.range p).map
        ((fun c => c.metadata.nz) ∘ partitionChild m (calcRowPartitionBoundaries m p))).sum
        = m.indPtrs.getD m.metadata.rows 0 - m.indPtrs.getD 0 0 := hsum
    rw [hfinal]
    omega

/-- Witness for C3's amended theorem: dense 4 with 2 partitions, where the
boundaries [0, 3, 4] stay within the 4 rows. -/
theorem C3_witness :
    validCSR (dense 4) ∧ partitionCoverageClaim (dense 4) 2 :=
  ⟨by decide, C3_partition_coverage_amended (dense 4) 2 (by decide) (by decide)
    (by decide) (by decide)⟩
